/-
Verification of the association engine of the signals-to-issues pipeline.

The development shallowly embeds the SQLite-backed pipeline:
  * `generate_associations_local.py`  — exhaustive cosine-similarity backend;
  * `generate_associations_chroma.py` — ChromaDB indexed backend;
  * `db.py`                           — read queries over the store.

Tables become Lean lists of rows; SQLite statements become list
operations.  The schema of the derived tables (`signal_embeddings`,
`issue_embeddings`, `associations`) is not part of the checked sources
(only the `signals`/`issues` schema is, in `load_data.py`); its
uniqueness constraints are modelled from the spec where indicated.
External collaborators (the sentence-transformers `encode` batch
function, the ChromaDB top-K query, Python's float rendering inside
f-strings) are parameters of the embedded functions.  Scores are kept
in an arbitrary linear ordered field `α`; the exhaustive backend's
intended instantiation is `α := ℝ` with `cosine_similarity`.
-/
import Mathlib

set_option linter.unusedSectionVars false

namespace SignalsPipeline

/-! ## Data model: `load_data.py` schema plus spec §6 derived tables -/

/-- A row of the `signals` table (`load_data.py`, `create_tables`).
SQLite `INTEGER` ids are modelled as `Int`; nullable columns as `Option`. -/
structure Signal where
  id : Int
  summary : String := ""
  context : String := ""
  sentiment : Int := 0
  severity : Int := 0
  bias : Int := 0
  date : String := ""
  boundary : String := ""
  method : String := ""
  topics : Option String := none
  keywords : Option String := none
  impacts : Option String := none
  emotions : Option String := none
deriving DecidableEq

/-- A row of the `issues` table (`load_data.py`, `create_tables`). -/
structure Issue where
  id : String
  identifier : String
  title : String := ""
  description : Option String := none
  state_name : Option String := none
  state_type : Option String := none
  team_name : Option String := none
  team_key : Option String := none
  assignee_name : Option String := none
  assignee_email : Option String := none
  creator_name : Option String := none
  creator_email : Option String := none
  priority : Option Int := none
  estimate : Option Int := none
  labels : Option String := none
  created_at : String := ""
  updated_at : String := ""
  completed_at : Option String := none
deriving DecidableEq

/-- A row of `signal_embeddings` (spec §6: `(signal_id FK unique, vector, model)`).
The JSON-serialised vector is modelled as the list of its numbers. -/
structure SignalEmbedding (α : Type) where
  signal_id : Int
  embedding : List α
  model : String
deriving DecidableEq

/-- A row of `issue_embeddings` (spec §6: `(issue_id FK unique, vector, model)`). -/
structure IssueEmbedding (α : Type) where
  issue_id : String
  embedding : List α
  model : String
deriving DecidableEq

/-- A row of `associations` (spec §6).  The autoincrement surrogate key `id`
is omitted: the code only ever uses it for NULL-tests in `LEFT JOIN`s and
existence checks, which are modelled directly on the rows. -/
structure Association (α : Type) where
  signal_id : Int
  issue_id : String
  score : α
  reason : String
  method : String
deriving DecidableEq

/-- The persistent store: one list of rows per table of `signals.db`. -/
structure Database (α : Type) where
  signals : List Signal
  issues : List Issue
  signal_embeddings : List (SignalEmbedding α)
  issue_embeddings : List (IssueEmbedding α)
  associations : List (Association α)
deriving DecidableEq

/-- `MODEL_NAME = "all-MiniLM-L6-v2"` in both generation scripts. -/
def MODEL_NAME : String := "all-MiniLM-L6-v2"

/-- `SIMILARITY_THRESHOLD = 0.5` in both generation scripts (the float `0.5`
is exactly `1/2`). -/
def SIMILARITY_THRESHOLD {α : Type} [LinearOrderedField α] : α := 1/2

/-- `TOP_K = 50` in `generate_associations_chroma.py` (the candidate count
passed to the external ChromaDB query). -/
def TOP_K : Nat := 50

variable {α : Type} [LinearOrderedField α]

/-! ## Association store operations -/

/-- The row `a` matches the key `(sid, iid)`. -/
def keyMatches (a : Association α) (sid : Int) (iid : String) : Bool :=
  a.signal_id == sid && a.issue_id == iid

/-- Non-emptiness of `SELECT ... FROM associations WHERE signal_id = ? AND
issue_id = ?`; also the negation of the `a.id IS NULL` test in the
incremental `LEFT JOIN` of `compute_associations`. -/
def hasAssociation (t : List (Association α)) (sid : Int) (iid : String) : Bool :=
  t.any (fun a => keyMatches a sid iid)

/-- Modelled from the spec: the `associations` schema is not under the checked
sources; spec §6 gives it a uniqueness constraint over `(signal_id, issue_id)`.
Against that constraint, SQLite's `INSERT OR IGNORE INTO associations ...`
(used by both generation scripts) keeps the existing row untouched on a key
collision and appends the new row otherwise. -/
def insertOrIgnoreAssociation (t : List (Association α)) (a : Association α) :
    List (Association α) :=
  if hasAssociation t a.signal_id a.issue_id then t else t ++ [a]

/-- The save loop of both generation scripts: each accumulated record is
inserted with `INSERT OR IGNORE`, in order. -/
def insertAssociations (t : List (Association α)) (l : List (Association α)) :
    List (Association α) :=
  l.foldl insertOrIgnoreAssociation t

/-! ## Embedding store operations -/

/-- Non-emptiness of a `signal_embeddings` lookup by `signal_id`. -/
def hasSignalEmbedding (t : List (SignalEmbedding α)) (sid : Int) : Bool :=
  t.any (fun e => e.signal_id == sid)

/-- Non-emptiness of an `issue_embeddings` lookup by `issue_id`. -/
def hasIssueEmbedding (t : List (IssueEmbedding α)) (iid : String) : Bool :=
  t.any (fun e => e.issue_id == iid)

/-- Modelled from the spec: spec §6 declares `signal_embeddings.signal_id`
unique.  Against that constraint, SQLite's `INSERT OR REPLACE INTO
signal_embeddings ...` (used by both generation scripts) deletes any
conflicting row and inserts the new one. -/
def insertOrReplaceSignalEmbedding (t : List (SignalEmbedding α))
    (e : SignalEmbedding α) : List (SignalEmbedding α) :=
  t.filter (fun r => !(r.signal_id == e.signal_id)) ++ [e]

/-- Modelled from the spec: spec §6 declares `issue_embeddings.issue_id`
unique; `INSERT OR REPLACE INTO issue_embeddings ...` replaces on collision. -/
def insertOrReplaceIssueEmbedding (t : List (IssueEmbedding α))
    (e : IssueEmbedding α) : List (IssueEmbedding α) :=
  t.filter (fun r => !(r.issue_id == e.issue_id)) ++ [e]

/-- `SELECT embedding FROM signal_embeddings WHERE signal_id = ?` with
`fetchone()` (`generate_associations_chroma.py`). -/
def signalEmbeddingFor (t : List (SignalEmbedding α)) (sid : Int) :
    Option (SignalEmbedding α) :=
  t.find? (fun e => e.signal_id == sid)

/-! ## Vector numerics (`generate_associations_local.py` lines 26-28,
`generate_associations_chroma.py` line 192)

The numpy float computations are idealised over the reals.  `np.dot` on
two 1-d arrays of equal length is the sum of pointwise products;
`List.zipWith` agrees on equal lengths (numpy would raise on a length
mismatch, a case the pipeline never produces since both embeddings come
from the same model). -/

/-- `np.dot(a, b)` for 1-d arrays. -/
def dotList (a b : List ℝ) : ℝ :=
  (List.zipWith (· * ·) a b).sum

/-- `np.linalg.norm(a)`: the Euclidean norm `sqrt (Σ aᵢ²)`. -/
noncomputable def linalgNorm (a : List ℝ) : ℝ :=
  Real.sqrt (dotList a a)

/-- `cosine_similarity(a, b) = np.dot(a, b) / (np.linalg.norm(a) *
np.linalg.norm(b))` (`generate_associations_local.py` lines 26-28; no
zero-norm guard is present in the source). -/
noncomputable def cosine_similarity (a b : List ℝ) : ℝ :=
  dotList a b / (linalgNorm a * linalgNorm b)

/-- The indexed backend's distance-to-similarity transform
`similarity = 1 / (1 + distance)` (`generate_associations_chroma.py`
line 192). -/
def chromaSimilarity (distance : α) : α := 1 / (1 + distance)

/-! ## Embedding generation -/

/-- The canonical text of a signal: `f"{summary}\n{context}"`. -/
def signalText (s : Signal) : String := s.summary ++ "\n" ++ s.context

/-- The canonical text of an issue: `f"{title}\n{description or ''}"`. -/
def issueText (i : Issue) : String := i.title ++ "\n" ++ i.description.getD ""

/-- `generate_signal_embeddings` (`generate_associations_local.py` lines
31-66): select the signals with no `signal_embeddings` row (`LEFT JOIN ...
WHERE se.signal_id IS NULL`), return early when there are none, otherwise
encode their texts in one batch (`model.encode`, the external collaborator
`encode`) and save each vector with `INSERT OR REPLACE`.  Python's
`zip(signals, embeddings)` truncates to the shorter list, as does
`List.zipWith`. -/
def generate_signal_embeddings (encode : List String → List (List α))
    (db : Database α) : Database α :=
  let missing := db.signals.filter
    (fun s => !(hasSignalEmbedding db.signal_embeddings s.id))
  if missing.isEmpty then db
  else
    let texts := missing.map signalText
    let embeddings := encode texts
    let rows := List.zipWith
      (fun s v => ({ signal_id := s.id, embedding := v, model := MODEL_NAME } :
        SignalEmbedding α)) missing embeddings
    { db with signal_embeddings :=
        rows.foldl insertOrReplaceSignalEmbedding db.signal_embeddings }

/-- `generate_issue_embeddings` (`generate_associations_local.py` lines
69-104), the mirror of `generate_signal_embeddings` for issues. -/
def generate_issue_embeddings (encode : List String → List (List α))
    (db : Database α) : Database α :=
  let missing := db.issues.filter
    (fun i => !(hasIssueEmbedding db.issue_embeddings i.identifier))
  if missing.isEmpty then db
  else
    let texts := missing.map issueText
    let embeddings := encode texts
    let rows := List.zipWith
      (fun i v => ({ issue_id := i.identifier, embedding := v, model := MODEL_NAME } :
        IssueEmbedding α)) missing embeddings
    { db with issue_embeddings :=
        rows.foldl insertOrReplaceIssueEmbedding db.issue_embeddings }

/-- `load_or_create_embeddings` (`generate_associations_chroma.py` lines
38-81): both table counts are read up front; signals are encoded (all of
them) only when `signal_count == 0`, issues only when `issue_count == 0`;
otherwise the respective store is left untouched. -/
def load_or_create_embeddings (encode : List String → List (List α))
    (db : Database α) : Database α :=
  let signal_count := db.signal_embeddings.length
  let issue_count := db.issue_embeddings.length
  let db1 :=
    if signal_count == 0 then
      let rows := List.zipWith
        (fun s v => ({ signal_id := s.id, embedding := v, model := MODEL_NAME } :
          SignalEmbedding α)) db.signals (encode (db.signals.map signalText))
      { db with signal_embeddings :=
          rows.foldl insertOrReplaceSignalEmbedding db.signal_embeddings }
    else db
  if issue_count == 0 then
    let rows := List.zipWith
      (fun i v => ({ issue_id := i.identifier, embedding := v, model := MODEL_NAME } :
        IssueEmbedding α)) db.issues (encode (db.issues.map issueText))
    { db1 with issue_embeddings :=
        rows.foldl insertOrReplaceIssueEmbedding db1.issue_embeddings }
  else db1

/-! ## Association engines -/

/-- Step 1 of `compute_associations` (`generate_associations_local.py`
lines 113-120): the `CROSS JOIN` of the two embedding tables, `LEFT JOIN`ed
against `associations` and filtered to the pairs with no existing
association row (`WHERE a.id IS NULL`). -/
def pairsToProcess (db : Database α) : List (SignalEmbedding α × IssueEmbedding α) :=
  ((db.signal_embeddings.flatMap
      (fun se => db.issue_embeddings.map (fun ie => (se, ie))))).filter
    (fun p => !(hasAssociation db.associations p.1.signal_id p.2.issue_id))

/-- The `associations` list accumulated by the scoring loop of
`compute_associations` (lines 128-147): every pair of `pairsToProcess` is
scored with `sim` (the source fixes `sim := cosine_similarity` over numpy
floats) and kept exactly when `score >= SIMILARITY_THRESHOLD`.  `fmt`
stands for Python's `f"{score:.2f}"` float rendering inside the reason
string. -/
def exhaustiveNewAssociations (fmt : α → String) (sim : List α → List α → α)
    (db : Database α) : List (Association α) :=
  (pairsToProcess db).filterMap (fun p =>
    let score := sim p.1.embedding p.2.embedding
    if SIMILARITY_THRESHOLD ≤ score then
      some { signal_id := p.1.signal_id, issue_id := p.2.issue_id, score := score,
             reason := "Semantic similarity: " ++ fmt score,
             method := "local-" ++ MODEL_NAME }
    else none)

/-- `compute_associations` (`generate_associations_local.py` lines
107-176): find the unassociated pairs, score them, and save every record
at or above the threshold with `INSERT OR IGNORE`.  The source's early
return on an empty pair list coincides with inserting the empty list. -/
def compute_associations (fmt : α → String) (sim : List α → List α → α)
    (db : Database α) : Database α :=
  { db with associations :=
      insertAssociations db.associations (exhaustiveNewAssociations fmt sim db) }

/-- `compute_associations` as the source runs it: `sim` fixed to
`cosine_similarity` over the reals. -/
noncomputable def compute_associations_real (fmt : ℝ → String)
    (db : Database ℝ) : Database ℝ :=
  compute_associations fmt cosine_similarity db

/-- The `associations` list accumulated by the query loop of
`generate_associations_with_chroma` (`generate_associations_chroma.py`
lines 151-205): for every row of `signals`, look up its embedding
(`continue` when absent), query the external ChromaDB issue index
(`queryIssues`, the top-`TOP_K` `(issue_id, L2-distance)` candidates),
skip candidates whose pair already has an association row (the live table
during the loop equals the table at entry, since all inserts happen after
the loop), convert distance to similarity with `chromaSimilarity`, and
keep the record when the similarity is at or above the threshold. -/
def indexedNewAssociations (fmt : α → String)
    (queryIssues : List α → List (String × α)) (db : Database α) :
    List (Association α) :=
  db.signals.flatMap (fun s =>
    match signalEmbeddingFor db.signal_embeddings s.id with
    | none => []
    | some se =>
      (queryIssues se.embedding).filterMap (fun c =>
        if hasAssociation db.associations s.id c.1 then none
        else
          let similarity := chromaSimilarity c.2
          if SIMILARITY_THRESHOLD ≤ similarity then
            some { signal_id := s.id, issue_id := c.1, score := similarity,
                   reason := "Semantic similarity: " ++ fmt similarity,
                   method := "chroma-" ++ MODEL_NAME }
          else none))

/-- `generate_associations_with_chroma` (`generate_associations_chroma.py`
lines 141-229): accumulate the candidate records, then save each with
`INSERT OR IGNORE`. -/
def generate_associations_with_chroma (fmt : α → String)
    (queryIssues : List α → List (String × α)) (db : Database α) : Database α :=
  { db with associations :=
      insertAssociations db.associations (indexedNewAssociations fmt queryIssues db) }

/-- The `(signal_id, issue_id)` pairs whose similarity the scoring loop of
`compute_associations` computes in a run started from `db`: exactly the
pairs of `pairsToProcess`, each of which reaches the
`score = cosine_similarity(...)` line. -/
def exhaustiveScoredPairs (db : Database α) : List (Int × String) :=
  (pairsToProcess db).map (fun p => (p.1.signal_id, p.2.issue_id))

/-- The `(signal_id, issue_id)` pairs whose similarity the query loop of
`generate_associations_with_chroma` computes in a run started from `db`:
the candidates that pass the embedding lookup and the pre-existence check
and so reach the `similarity = 1 / (1 + distance)` line. -/
def indexedScoredPairs (queryIssues : List α → List (String × α))
    (db : Database α) : List (Int × String) :=
  db.signals.flatMap (fun s =>
    match signalEmbeddingFor db.signal_embeddings s.id with
    | none => []
    | some se =>
      (queryIssues se.embedding).filterMap (fun c =>
        if hasAssociation db.associations s.id c.1 then none
        else some (s.id, c.1)))

/-- One invocation of either association engine, with arbitrary external
collaborators (score rendering, similarity function, index query). -/
inductive AssocRun : Database α → Database α → Prop
  | exhaustive (fmt : α → String) (sim : List α → List α → α) (db : Database α) :
      AssocRun db (compute_associations fmt sim db)
  | indexed (fmt : α → String) (queryIssues : List α → List (String × α))
      (db : Database α) :
      AssocRun db (generate_associations_with_chroma fmt queryIssues db)

/-- Any finite sequence of association-engine invocations. -/
def Runs : Database α → Database α → Prop :=
  Relation.ReflTransGen AssocRun

/-! ## Read queries (`db.py`) -/

/-- `get_issue_by_id` (`db.py` lines 44-54): `SELECT * FROM issues WHERE
identifier = ?` with `fetchone()`, `None` when no row matches. -/
def get_issue_by_id (db : Database α) (issue_id : String) : Option Issue :=
  db.issues.find? (fun i => i.identifier == issue_id)

/-- `get_signal_by_id` (`db.py` lines 101-111). -/
def get_signal_by_id (db : Database α) (signal_id : Int) : Option Signal :=
  db.signals.find? (fun s => s.id == signal_id)

/-- `get_association` (`db.py` lines 136-146). -/
def get_association (db : Database α) (signal_id : Int) (issue_id : String) :
    Option (Association α) :=
  db.associations.find? (fun a => a.signal_id == signal_id && a.issue_id == issue_id)

/-- The `ORDER BY a.score DESC` relation on joined rows: the left row's
association score is at least the right row's. -/
def byScoreDesc {β : Type} (x y : β × Association α) : Prop :=
  y.2.score ≤ x.2.score

instance {β : Type} : DecidableRel (byScoreDesc (α := α) (β := β)) :=
  fun x y => inferInstanceAs (Decidable (y.2.score ≤ x.2.score))

instance {β : Type} : IsTotal (β × Association α) byScoreDesc :=
  ⟨fun x y => le_total y.2.score x.2.score⟩

instance {β : Type} : IsTrans (β × Association α) byScoreDesc :=
  ⟨fun _ _ _ h h' => le_trans h' h⟩

/-- `get_signals_for_issue` (`db.py` lines 57-74): the associations of the
issue with score at least `min_score`, inner-joined to `signals` on
`a.signal_id = s.id`, ordered by score descending. -/
def get_signals_for_issue (db : Database α) (issue_id : String) (min_score : α) :
    List (Signal × Association α) :=
  List.insertionSort byScoreDesc
    ((db.associations.filter
        (fun a => a.issue_id == issue_id && decide (min_score ≤ a.score))).flatMap
      (fun a => (db.signals.filter (fun s => s.id == a.signal_id)).map
        (fun s => (s, a))))

/-- `get_issues_for_signal` (`db.py` lines 114-131): the associations of
the signal with score at least `min_score`, inner-joined to `issues` on
`a.issue_id = i.identifier`, ordered by score descending. -/
def get_issues_for_signal (db : Database α) (signal_id : Int) (min_score : α) :
    List (Issue × Association α) :=
  List.insertionSort byScoreDesc
    ((db.associations.filter
        (fun a => a.signal_id == signal_id && decide (min_score ≤ a.score))).flatMap
      (fun a => (db.issues.filter (fun i => i.identifier == a.issue_id)).map
        (fun i => (i, a))))

/-- `get_associations_count` (`db.py` lines 149-154). -/
def get_associations_count (db : Database α) : Nat :=
  db.associations.length

/-- The dictionary returned by `get_embeddings_status`. -/
structure EmbeddingsStatus where
  signal_total : Nat
  signal_embedded : Nat
  issue_total : Nat
  issue_embedded : Nat
  associations_count : Nat
deriving DecidableEq

/-- `get_embeddings_status` (`db.py` lines 157-177): five `COUNT(*)`
row counts. -/
def get_embeddings_status (db : Database α) : EmbeddingsStatus :=
  { signal_total := db.signals.length
    signal_embedded := db.signal_embeddings.length
    issue_total := db.issues.length
    issue_embedded := db.issue_embeddings.length
    associations_count := db.associations.length }

/-! ## Concrete sample data (used by the closed witness theorems) -/

/-- A sample signal row. -/
def sig1 : Signal := { id := 1, summary := "login fails", context := "ctx" }

/-- A second sample signal row, never embedded in `partialDb`. -/
def sig2 : Signal := { id := 2, summary := "second", context := "ctx2" }

/-- A sample issue row. -/
def iss1 : Issue := { id := "uuid-1", identifier := "ENG-1",
                      title := "Login button unresponsive" }

/-- A sample signal embedding row. -/
def semb1 : SignalEmbedding ℚ :=
  { signal_id := 1, embedding := [1, 0], model := MODEL_NAME }

/-- A sample issue embedding row. -/
def iemb1 : IssueEmbedding ℚ :=
  { issue_id := "ENG-1", embedding := [1, 0], model := MODEL_NAME }

/-- A sample store: one signal, one issue, both embedded, no associations. -/
def sampleDb : Database ℚ :=
  { signals := [sig1], issues := [iss1], signal_embeddings := [semb1],
    issue_embeddings := [iemb1], associations := [] }

/-- A sample association row for the pair `(1, "ENG-1")`. -/
def assoc1 : Association ℚ :=
  { signal_id := 1, issue_id := "ENG-1", score := 9/10,
    reason := "Semantic similarity: 0.90", method := "local-" ++ MODEL_NAME }

/-- `sampleDb` with the pair `(1, "ENG-1")` already associated. -/
def associatedDb : Database ℚ := { sampleDb with associations := [assoc1] }

/-- A store where signal 1 is embedded but signal 2 is not. -/
def partialDb : Database ℚ :=
  { signals := [sig1, sig2], issues := [iss1], signal_embeddings := [semb1],
    issue_embeddings := [iemb1], associations := [] }

/-- A similarity collaborator that scores every pair `1`. -/
def simOne : List ℚ → List ℚ → ℚ := fun _ _ => 1

/-- A similarity collaborator that scores every pair `0`. -/
def simZero : List ℚ → List ℚ → ℚ := fun _ _ => 0

/-- A score-rendering collaborator. -/
def fmtQ : ℚ → String := fun _ => "0.00"

/-- An index-query collaborator returning the one issue at distance 0. -/
def queryOne : List ℚ → List (String × ℚ) := fun _ => [("ENG-1", 0)]

/-- An encoding collaborator mapping every text to the vector `[1]`. -/
def encodeOne : List String → List (List ℚ) := fun ts => ts.map (fun _ => [1])

/-- The association store holds at most one row per `(signal_id, issue_id)`
key. -/
def UniqKeys (t : List (Association α)) : Prop :=
  t.Pairwise (fun a b => ¬(a.signal_id = b.signal_id ∧ a.issue_id = b.issue_id))

instance (t : List (Association α)) : Decidable (UniqKeys t) :=
  inferInstanceAs (Decidable (t.Pairwise _))

/-! ## Embedding store lemmas -/

theorem hasSignalEmbedding_eq_true {t : List (SignalEmbedding α)} {sid : Int} :
    hasSignalEmbedding t sid = true ↔ ∃ e ∈ t, e.signal_id = sid := by
  simp [hasSignalEmbedding]

theorem hasSignalEmbedding_insertOrReplace_of
    {t : List (SignalEmbedding α)} {e : SignalEmbedding α} {sid : Int}
    (h : hasSignalEmbedding t sid = true ∨ e.signal_id = sid) :
    hasSignalEmbedding (insertOrReplaceSignalEmbedding t e) sid = true := by
  rw [hasSignalEmbedding_eq_true]
  rcases h with h | h
  · obtain ⟨r, hr, hid⟩ := hasSignalEmbedding_eq_true.mp h
    by_cases hre : r.signal_id = e.signal_id
    · exact ⟨e, by simp [insertOrReplaceSignalEmbedding], by rw [← hre, hid]⟩
    · exact ⟨r, List.mem_append_left _ (List.mem_filter.mpr ⟨hr, by simp [hre]⟩), hid⟩
  · exact ⟨e, by simp [insertOrReplaceSignalEmbedding], h⟩

theorem hasSignalEmbedding_foldl_of {l : List (SignalEmbedding α)}
    {t : List (SignalEmbedding α)} {sid : Int}
    (h : hasSignalEmbedding t sid = true ∨ ∃ e ∈ l, e.signal_id = sid) :
    hasSignalEmbedding (l.foldl insertOrReplaceSignalEmbedding t) sid = true := by
  induction l generalizing t with
  | nil => exact h.elim id (by simp)
  | cons e l ih =>
    refine ih ?_
    rcases h with h | ⟨r, hr, hid⟩
    · exact Or.inl (hasSignalEmbedding_insertOrReplace_of (Or.inl h))
    · rcases List.mem_cons.mp hr with rfl | hr
      · exact Or.inl (hasSignalEmbedding_insertOrReplace_of (Or.inr hid))
      · exact Or.inr ⟨r, hr, hid⟩

theorem mem_foldl_insertOrReplaceSignal {l t : List (SignalEmbedding α)}
    {e : SignalEmbedding α} (he : e ∈ t)
    (hne : ∀ r ∈ l, e.signal_id ≠ r.signal_id) :
    e ∈ l.foldl insertOrReplaceSignalEmbedding t := by
  induction l generalizing t with
  | nil => exact he
  | cons r l ih =>
    refine ih ?_ (fun r' hr' => hne r' (List.mem_cons_of_mem _ hr'))
    exact List.mem_append_left _
      (List.mem_filter.mpr ⟨he, by simp [hne r (List.mem_cons_self _ _)]⟩)

/-- Every row built by the save loop of signal-embedding generation takes
its id from one of the encoded signals. -/
theorem signalRow_ids {sigs : List Signal} {embs : List (List α)}
    {r : SignalEmbedding α}
    (hr : r ∈ List.zipWith (fun s v =>
      ({ signal_id := s.id, embedding := v, model := MODEL_NAME } :
        SignalEmbedding α)) sigs embs) :
    ∃ s ∈ sigs, r.signal_id = s.id := by
  induction sigs generalizing embs with
  | nil => cases hr
  | cons s sigs ih =>
    cases embs with
    | nil => cases hr
    | cons v embs =>
      rcases List.mem_cons.mp hr with rfl | hr
      · exact ⟨s, List.mem_cons_self _ _, rfl⟩
      · obtain ⟨s', hs', hid⟩ := ih hr
        exact ⟨s', List.mem_cons_of_mem _ hs', hid⟩

/-- When the batch returns at least one vector per signal, every encoded
signal receives a row. -/
theorem signalRow_covers {sigs : List Signal} {embs : List (List α)}
    (hl : sigs.length ≤ embs.length) {s : Signal} (hs : s ∈ sigs) :
    ∃ r ∈ List.zipWith (fun s v =>
      ({ signal_id := s.id, embedding := v, model := MODEL_NAME } :
        SignalEmbedding α)) sigs embs, r.signal_id = s.id := by
  induction sigs generalizing embs with
  | nil => cases hs
  | cons s0 sigs ih =>
    cases embs with
    | nil => exact absurd hl (by simp)
    | cons v embs =>
      rcases List.mem_cons.mp hs with rfl | hs
      · exact ⟨_, List.mem_cons_self _ _, rfl⟩
      · obtain ⟨r, hr, hid⟩ := ih (Nat.le_of_succ_le_succ hl) hs
        exact ⟨r, List.mem_cons_of_mem _ hr, hid⟩

theorem hasIssueEmbedding_eq_true {t : List (IssueEmbedding α)} {iid : String} :
    hasIssueEmbedding t iid = true ↔ ∃ e ∈ t, e.issue_id = iid := by
  simp [hasIssueEmbedding]

theorem hasIssueEmbedding_insertOrReplace_of
    {t : List (IssueEmbedding α)} {e : IssueEmbedding α} {iid : String}
    (h : hasIssueEmbedding t iid = true ∨ e.issue_id = iid) :
    hasIssueEmbedding (insertOrReplaceIssueEmbedding t e) iid = true := by
  rw [hasIssueEmbedding_eq_true]
  rcases h with h | h
  · obtain ⟨r, hr, hid⟩ := hasIssueEmbedding_eq_true.mp h
    by_cases hre : r.issue_id = e.issue_id
    · exact ⟨e, by simp [insertOrReplaceIssueEmbedding], by rw [← hre, hid]⟩
    · exact ⟨r, List.mem_append_left _ (List.mem_filter.mpr ⟨hr, by simp [hre]⟩), hid⟩
  · exact ⟨e, by simp [insertOrReplaceIssueEmbedding], h⟩

theorem hasIssueEmbedding_foldl_of {l : List (IssueEmbedding α)}
    {t : List (IssueEmbedding α)} {iid : String}
    (h : hasIssueEmbedding t iid = true ∨ ∃ e ∈ l, e.issue_id = iid) :
    hasIssueEmbedding (l.foldl insertOrReplaceIssueEmbedding t) iid = true := by
  induction l generalizing t with
  | nil => exact h.elim id (by simp)
  | cons e l ih =>
    refine ih ?_
    rcases h with h | ⟨r, hr, hid⟩
    · exact Or.inl (hasIssueEmbedding_insertOrReplace_of (Or.inl h))
    · rcases List.mem_cons.mp hr with rfl | hr
      · exact Or.inl (hasIssueEmbedding_insertOrReplace_of (Or.inr hid))
      · exact Or.inr ⟨r, hr, hid⟩

theorem mem_foldl_insertOrReplaceIssue {l t : List (IssueEmbedding α)}
    {e : IssueEmbedding α} (he : e ∈ t)
    (hne : ∀ r ∈ l, e.issue_id ≠ r.issue_id) :
    e ∈ l.foldl insertOrReplaceIssueEmbedding t := by
  induction l generalizing t with
  | nil => exact he
  | cons r l ih =>
    refine ih ?_ (fun r' hr' => hne r' (List.mem_cons_of_mem _ hr'))
    exact List.mem_append_left _
      (List.mem_filter.mpr ⟨he, by simp [hne r (List.mem_cons_self _ _)]⟩)

/-- Every row built by the save loop of issue-embedding generation takes
its id from one of the encoded issues. -/
theorem issueRow_ids {iss : List Issue} {embs : List (List α)}
    {r : IssueEmbedding α}
    (hr : r ∈ List.zipWith (fun i v =>
      ({ issue_id := i.identifier, embedding := v, model := MODEL_NAME } :
        IssueEmbedding α)) iss embs) :
    ∃ i ∈ iss, r.issue_id = i.identifier := by
  induction iss generalizing embs with
  | nil => cases hr
  | cons i iss ih =>
    cases embs with
    | nil => cases hr
    | cons v embs =>
      rcases List.mem_cons.mp hr with rfl | hr
      · exact ⟨i, List.mem_cons_self _ _, rfl⟩
      · obtain ⟨i', hi', hid⟩ := ih hr
        exact ⟨i', List.mem_cons_of_mem _ hi', hid⟩

/-- When the batch returns at least one vector per issue, every encoded
issue receives a row. -/
theorem issueRow_covers {iss : List Issue} {embs : List (List α)}
    (hl : iss.length ≤ embs.length) {i : Issue} (hi : i ∈ iss) :
    ∃ r ∈ List.zipWith (fun i v =>
      ({ issue_id := i.identifier, embedding := v, model := MODEL_NAME } :
        IssueEmbedding α)) iss embs, r.issue_id = i.identifier := by
  induction iss generalizing embs with
  | nil => cases hi
  | cons i0 iss ih =>
    cases embs with
    | nil => exact absurd hl (by simp)
    | cons v embs =>
      rcases List.mem_cons.mp hi with rfl | hi
      · exact ⟨_, List.mem_cons_self _ _, rfl⟩
      · obtain ⟨r, hr, hid⟩ := ih (Nat.le_of_succ_le_succ hl) hi
        exact ⟨r, List.mem_cons_of_mem _ hr, hid⟩

/-! ## Association store lemmas -/

theorem keyMatches_eq_true {a : Association α} {sid : Int} {iid : String} :
    keyMatches a sid iid = true ↔ a.signal_id = sid ∧ a.issue_id = iid := by
  simp [keyMatches]

theorem hasAssociation_eq_true {t : List (Association α)} {sid : Int} {iid : String} :
    hasAssociation t sid iid = true ↔
      ∃ a ∈ t, a.signal_id = sid ∧ a.issue_id = iid := by
  simp [hasAssociation, List.any_eq_true, keyMatches_eq_true]

theorem hasAssociation_eq_false {t : List (Association α)} {sid : Int} {iid : String} :
    hasAssociation t sid iid = false ↔
      ∀ a ∈ t, ¬(a.signal_id = sid ∧ a.issue_id = iid) := by
  simp [hasAssociation, List.any_eq_false, keyMatches_eq_true]

theorem hasAssociation_append {t u : List (Association α)} {sid : Int} {iid : String} :
    hasAssociation (t ++ u) sid iid =
      (hasAssociation t sid iid || hasAssociation u sid iid) := by
  simp [hasAssociation]

theorem hasAssociation_insertOrIgnore {t : List (Association α)}
    {b : Association α} {sid : Int} {iid : String} :
    hasAssociation (insertOrIgnoreAssociation t b) sid iid =
      (hasAssociation t sid iid || keyMatches b sid iid) := by
  unfold insertOrIgnoreAssociation
  split
  · next hkey =>
    rcases h : keyMatches b sid iid with _ | _
    · simp
    · obtain ⟨h1, h2⟩ := keyMatches_eq_true.mp h
      rw [← h1, ← h2, hkey]
      simp
  · simp [hasAssociation_append, hasAssociation, keyMatches]

theorem hasAssociation_insertAssociations {l t : List (Association α)}
    {sid : Int} {iid : String} :
    hasAssociation (insertAssociations t l) sid iid =
      (hasAssociation t sid iid || l.any (fun a => keyMatches a sid iid)) := by
  induction l generalizing t with
  | nil => simp [insertAssociations]
  | cons b l ih =>
    show hasAssociation (insertAssociations (insertOrIgnoreAssociation t b) l) sid iid = _
    rw [ih, hasAssociation_insertOrIgnore]
    simp [Bool.or_assoc]

theorem insertAssociations_eq_append (l t : List (Association α)) :
    ∃ r, insertAssociations t l = t ++ r := by
  induction l generalizing t with
  | nil => exact ⟨[], by simp [insertAssociations]⟩
  | cons b l ih =>
    show ∃ r, insertAssociations (insertOrIgnoreAssociation t b) l = t ++ r
    unfold insertOrIgnoreAssociation
    split
    · exact ih t
    · obtain ⟨r, hr⟩ := ih (t ++ [b])
      exact ⟨b :: r, by simpa using hr⟩

theorem mem_of_mem_insertAssociations {l t : List (Association α)}
    {b : Association α} (h : b ∈ insertAssociations t l) : b ∈ t ∨ b ∈ l := by
  induction l generalizing t with
  | nil => exact Or.inl h
  | cons c l ih =>
    have h' : b ∈ insertAssociations (insertOrIgnoreAssociation t c) l := h
    rcases ih h' with hm | hm
    · unfold insertOrIgnoreAssociation at hm
      split at hm
      · exact Or.inl hm
      · rcases List.mem_append.mp hm with hm | hm
        · exact Or.inl hm
        · simp at hm
          exact Or.inr (by simp [hm])
    · exact Or.inr (List.mem_cons_of_mem _ hm)

theorem uniqKeys_insertOrIgnore {t : List (Association α)} (h : UniqKeys t)
    (b : Association α) : UniqKeys (insertOrIgnoreAssociation t b) := by
  unfold insertOrIgnoreAssociation
  split
  · exact h
  · next hkey =>
    have hfalse : hasAssociation t b.signal_id b.issue_id = false :=
      Bool.not_eq_true _ ▸ eq_false_of_ne_true hkey
    have hnone := hasAssociation_eq_false.mp hfalse
    rw [UniqKeys, List.pairwise_append]
    exact ⟨h, List.pairwise_singleton _ _,
      fun x hx y hy => by simp at hy; subst hy; exact hnone x hx⟩

theorem uniqKeys_insertAssociations {t : List (Association α)} (h : UniqKeys t)
    (l : List (Association α)) : UniqKeys (insertAssociations t l) := by
  induction l generalizing t with
  | nil => exact h
  | cons b l ih => exact ih (uniqKeys_insertOrIgnore h b)

/-! ## Engine lemmas -/

@[simp]
theorem compute_associations_signals {fmt : α → String} {sim : List α → List α → α}
    {db : Database α} : (compute_associations fmt sim db).signals = db.signals := rfl

@[simp]
theorem compute_associations_sig_embs {fmt : α → String} {sim : List α → List α → α}
    {db : Database α} :
    (compute_associations fmt sim db).signal_embeddings = db.signal_embeddings := rfl

@[simp]
theorem compute_associations_iss_embs {fmt : α → String} {sim : List α → List α → α}
    {db : Database α} :
    (compute_associations fmt sim db).issue_embeddings = db.issue_embeddings := rfl

theorem compute_associations_assocs {fmt : α → String} {sim : List α → List α → α}
    {db : Database α} :
    (compute_associations fmt sim db).associations =
      insertAssociations db.associations (exhaustiveNewAssociations fmt sim db) := rfl

@[simp]
theorem chroma_signals {fmt : α → String} {q : List α → List (String × α)}
    {db : Database α} :
    (generate_associations_with_chroma fmt q db).signals = db.signals := rfl

@[simp]
theorem chroma_sig_embs {fmt : α → String} {q : List α → List (String × α)}
    {db : Database α} :
    (generate_associations_with_chroma fmt q db).signal_embeddings =
      db.signal_embeddings := rfl

@[simp]
theorem chroma_iss_embs {fmt : α → String} {q : List α → List (String × α)}
    {db : Database α} :
    (generate_associations_with_chroma fmt q db).issue_embeddings =
      db.issue_embeddings := rfl

theorem chroma_assocs {fmt : α → String} {q : List α → List (String × α)}
    {db : Database α} :
    (generate_associations_with_chroma fmt q db).associations =
      insertAssociations db.associations (indexedNewAssociations fmt q db) := rfl

theorem score_of_mem_exhaustiveNew {fmt : α → String} {sim : List α → List α → α}
    {db : Database α} {a : Association α}
    (h : a ∈ exhaustiveNewAssociations fmt sim db) :
    SIMILARITY_THRESHOLD ≤ a.score := by
  simp only [exhaustiveNewAssociations, List.mem_filterMap] at h
  obtain ⟨p, _, hp⟩ := h
  split at hp
  · next hθ => cases hp; exact hθ
  · exact absurd hp (by simp)

theorem score_of_mem_indexedNew {fmt : α → String} {q : List α → List (String × α)}
    {db : Database α} {a : Association α}
    (h : a ∈ indexedNewAssociations fmt q db) :
    SIMILARITY_THRESHOLD ≤ a.score := by
  simp only [indexedNewAssociations, List.mem_flatMap] at h
  obtain ⟨s, _, ha⟩ := h
  split at ha
  · cases ha
  · simp only [List.mem_filterMap] at ha
    obtain ⟨c, _, hc⟩ := ha
    split at hc
    · exact absurd hc (by simp)
    · split at hc
      · next hθ => cases hc; exact hθ
      · exact absurd hc (by simp)

/-- The record the scoring loop of `compute_associations` appends for an
unassociated pair whose score clears the threshold. -/
theorem exhaustiveNew_any_keyMatches {fmt : α → String} {sim : List α → List α → α}
    {db : Database α} {p : SignalEmbedding α × IssueEmbedding α}
    (hp : p ∈ pairsToProcess db)
    (hθ : SIMILARITY_THRESHOLD ≤ sim p.1.embedding p.2.embedding) :
    (exhaustiveNewAssociations fmt sim db).any
      (fun a => keyMatches a p.1.signal_id p.2.issue_id) = true := by
  rw [List.any_eq_true]
  refine ⟨{ signal_id := p.1.signal_id, issue_id := p.2.issue_id,
            score := sim p.1.embedding p.2.embedding,
            reason := "Semantic similarity: " ++ fmt (sim p.1.embedding p.2.embedding),
            method := "local-" ++ MODEL_NAME }, ?_, by simp [keyMatches]⟩
  exact List.mem_filterMap.mpr ⟨p, hp, by simp only [if_pos hθ]⟩

/-- Every association-engine invocation only feeds threshold-clearing
records into the `INSERT OR IGNORE` loop. -/
theorem assocRun_associations {db db' : Database α} (h : AssocRun db db') :
    ∃ l, db'.associations = insertAssociations db.associations l ∧
      ∀ a ∈ l, SIMILARITY_THRESHOLD ≤ a.score := by
  cases h with
  | exhaustive fmt sim db =>
    exact ⟨exhaustiveNewAssociations fmt sim db, rfl,
      fun a ha => score_of_mem_exhaustiveNew ha⟩
  | indexed fmt q db =>
    exact ⟨indexedNewAssociations fmt q db, rfl,
      fun a ha => score_of_mem_indexedNew ha⟩

theorem runs_associations_eq_append {db db' : Database α} (h : Runs db db') :
    ∃ rest, db'.associations = db.associations ++ rest := by
  induction h with
  | refl => exact ⟨[], by simp⟩
  | tail _ hstep ih =>
    obtain ⟨rest, hrest⟩ := ih
    obtain ⟨l, hl, _⟩ := assocRun_associations hstep
    obtain ⟨r, hr⟩ := insertAssociations_eq_append l _
    exact ⟨rest ++ r, by rw [hl, hr, hrest, List.append_assoc]⟩

/-! ## C1 -/

/-- C1: over any sequence of association-computation runs (either backend,
any collaborators), the store keeps at most one association row per
`(signal_id, issue_id)` pair, and earlier rows survive every later run
unchanged and in place — a key collision leaves the previously persisted
record authoritative (first-write-wins; nothing is overwritten or
updated). -/
theorem association_rows_unique_first_write_wins (db db' : Database α)
    (h : Runs db db') (hu : UniqKeys db.associations) :
    UniqKeys db'.associations ∧
      ∃ rest, db'.associations = db.associations ++ rest := by
  refine ⟨?_, runs_associations_eq_append h⟩
  induction h with
  | refl => exact hu
  | tail _ hstep ih =>
    obtain ⟨l, hl, _⟩ := assocRun_associations hstep
    rw [hl]
    exact uniqKeys_insertAssociations ih l

/-- Witness for C1 at a concrete store and run. -/
theorem association_rows_unique_first_write_wins_app :
    UniqKeys (compute_associations fmtQ simOne sampleDb).associations ∧
      ∃ rest, (compute_associations fmtQ simOne sampleDb).associations =
        sampleDb.associations ++ rest :=
  association_rows_unique_first_write_wins sampleDb _
    (Relation.ReflTransGen.single (AssocRun.exhaustive fmtQ simOne sampleDb))
    (by decide)

/-! ## C2 -/

/-- C2: starting from a store whose association rows all score at least
`SIMILARITY_THRESHOLD` (in particular from an empty store), every
association row persisted by any number of runs of either backend has
score at least the threshold — a pair whose computed similarity falls
below the threshold is never persisted, since both scoring loops discard
it before the insert stage. -/
theorem persisted_scores_meet_threshold (db db' : Database α) (h : Runs db db')
    (h0 : ∀ a ∈ db.associations, SIMILARITY_THRESHOLD ≤ a.score) :
    ∀ a ∈ db'.associations, SIMILARITY_THRESHOLD ≤ a.score := by
  induction h with
  | refl => exact h0
  | tail _ hstep ih =>
    obtain ⟨l, hl, hsc⟩ := assocRun_associations hstep
    intro a ha
    rw [hl] at ha
    rcases mem_of_mem_insertAssociations ha with hm | hm
    · exact ih a hm
    · exact hsc a hm

/-- Witness for C2 at a concrete store and runs of both backends. -/
theorem persisted_scores_meet_threshold_app :
    (∀ a ∈ sampleDb.associations, SIMILARITY_THRESHOLD ≤ a.score) ∧
      ∀ a ∈ (generate_associations_with_chroma fmtQ queryOne
          (compute_associations fmtQ simOne sampleDb)).associations,
        SIMILARITY_THRESHOLD ≤ a.score :=
  ⟨by simp [sampleDb],
    persisted_scores_meet_threshold sampleDb _
      (Relation.ReflTransGen.head (AssocRun.exhaustive fmtQ simOne sampleDb)
        (Relation.ReflTransGen.single (AssocRun.indexed fmtQ queryOne _)))
      (by simp [sampleDb])⟩

/-! ## C3 -/

/-- The record the query loop of `generate_associations_with_chroma`
appends for a candidate that passes every check. -/
theorem indexedNew_any_keyMatches {fmt : α → String}
    {q : List α → List (String × α)} {db : Database α} {s : Signal}
    {se : SignalEmbedding α} {c : String × α} (hs : s ∈ db.signals)
    (hfind : signalEmbeddingFor db.signal_embeddings s.id = some se)
    (hc : c ∈ q se.embedding)
    (hkey : hasAssociation db.associations s.id c.1 = false)
    (hθ : SIMILARITY_THRESHOLD ≤ chromaSimilarity c.2) :
    (indexedNewAssociations fmt q db).any (fun a => keyMatches a s.id c.1) = true := by
  rw [List.any_eq_true]
  refine ⟨{ signal_id := s.id, issue_id := c.1, score := chromaSimilarity c.2,
            reason := "Semantic similarity: " ++ fmt (chromaSimilarity c.2),
            method := "chroma-" ++ MODEL_NAME }, ?_, by simp [keyMatches]⟩
  rw [indexedNewAssociations, List.mem_flatMap]
  refine ⟨s, hs, ?_⟩
  rw [hfind]
  exact List.mem_filterMap.mpr ⟨c, hc, by
    rw [if_neg (by simp [hkey]), if_pos hθ]⟩

/-- C3, exhaustive backend: with corpus, similarity function and threshold
unchanged, a second `compute_associations` run leaves the store identical
(zero new rows).  Pairs below the threshold are re-scored but again
discarded; pairs at or above it are excluded by the incremental
`LEFT JOIN`. -/
theorem exhaustive_second_run_inserts_nothing (fmt : α → String)
    (sim : List α → List α → α) (db : Database α) :
    compute_associations fmt sim (compute_associations fmt sim db) =
      compute_associations fmt sim db := by
  set db1 := compute_associations fmt sim db with hdb1
  have hnew : exhaustiveNewAssociations fmt sim db1 = [] := by
    rw [exhaustiveNewAssociations, List.filterMap_eq_nil_iff]
    intro p hp
    rw [pairsToProcess, List.mem_filter] at hp
    obtain ⟨hcross, hkeyb⟩ := hp
    have hkey : hasAssociation db1.associations p.1.signal_id p.2.issue_id = false := by
      simpa using hkeyb
    rw [hdb1, compute_associations_assocs, hasAssociation_insertAssociations] at hkey
    rw [Bool.or_eq_false_iff] at hkey
    obtain ⟨h0, hn⟩ := hkey
    have hpd : p ∈ pairsToProcess db := by
      rw [pairsToProcess, List.mem_filter]
      exact ⟨by simpa [hdb1] using hcross, by simp [h0]⟩
    by_cases hθ : SIMILARITY_THRESHOLD ≤ sim p.1.embedding p.2.embedding
    · rw [exhaustiveNew_any_keyMatches hpd hθ] at hn
      cases hn
    · simp only [if_neg hθ]
  show ({ db1 with associations :=
      insertAssociations db1.associations (exhaustiveNewAssociations fmt sim db1) } :
        Database α) = db1
  rw [hnew]
  rfl

/-- C3, indexed backend: with corpus, index query and threshold unchanged,
a second `generate_associations_with_chroma` run leaves the store
identical (zero new rows). -/
theorem indexed_second_run_inserts_nothing (fmt : α → String)
    (q : List α → List (String × α)) (db : Database α) :
    generate_associations_with_chroma fmt q
        (generate_associations_with_chroma fmt q db) =
      generate_associations_with_chroma fmt q db := by
  set db1 := generate_associations_with_chroma fmt q db with hdb1
  have hnew : indexedNewAssociations fmt q db1 = [] := by
    rw [indexedNewAssociations, List.flatMap_eq_nil_iff]
    intro s hs
    have hs' : s ∈ db.signals := by simpa [hdb1] using hs
    rw [show db1.signal_embeddings = db.signal_embeddings from rfl]
    cases hfind : signalEmbeddingFor db.signal_embeddings s.id with
    | none => rfl
    | some se =>
      rw [List.filterMap_eq_nil_iff]
      intro c hc
      by_cases hkey : hasAssociation db1.associations s.id c.1 = true
      · simp [hkey]
      · have hkey' : hasAssociation db1.associations s.id c.1 = false :=
          eq_false_of_ne_true hkey
        rw [hdb1, chroma_assocs, hasAssociation_insertAssociations,
          Bool.or_eq_false_iff] at hkey'
        obtain ⟨h0, hn⟩ := hkey'
        by_cases hθ : SIMILARITY_THRESHOLD ≤ chromaSimilarity c.2
        · rw [indexedNew_any_keyMatches hs' hfind hc h0 hθ] at hn
          cases hn
        · simp only [if_neg hkey, if_neg hθ]
  show ({ db1 with associations :=
      insertAssociations db1.associations (indexedNewAssociations fmt q db1) } :
        Database α) = db1
  rw [hnew]
  rfl

/-- C3: running association computation a second time immediately after a
first run, with signals, issues, embeddings, collaborators and threshold
unchanged, inserts zero new association rows — the whole store, in
particular the association table, is identical after the second run, for
either backend. -/
theorem second_run_inserts_nothing :
    (∀ (fmt : α → String) (sim : List α → List α → α) (db : Database α),
        compute_associations fmt sim (compute_associations fmt sim db) =
          compute_associations fmt sim db) ∧
      ∀ (fmt : α → String) (q : List α → List (String × α)) (db : Database α),
        generate_associations_with_chroma fmt q
            (generate_associations_with_chroma fmt q db) =
          generate_associations_with_chroma fmt q db :=
  ⟨exhaustive_second_run_inserts_nothing, indexed_second_run_inserts_nothing⟩

/-! ## C5 -/

/-- A pair's persisted association survives any later sequence of runs. -/
theorem runs_hasAssociation_mono {db db' : Database α} {sid : Int} {iid : String}
    (h : Runs db db') (hkey : hasAssociation db.associations sid iid = true) :
    hasAssociation db'.associations sid iid = true := by
  obtain ⟨rest, hrest⟩ := runs_associations_eq_append h
  rw [hrest, hasAssociation_append, hkey, Bool.true_or]

/-- Counterexample to C5 as stated: in a store holding one signal
embedding and one issue embedding and no associations, a similarity
function that scores the pair `0` (below the threshold) leaves the pair
unpersisted, and the pair is scored by the first run and scored again by
the immediately following run — its similarity is not computed at most
once across invocations. -/
theorem pair_rescored_by_second_run :
    (1, "ENG-1") ∈ exhaustiveScoredPairs sampleDb ∧
      (1, "ENG-1") ∈ exhaustiveScoredPairs (compute_associations fmtQ simZero sampleDb) := by
  constructor
  · decide
  · norm_num [compute_associations, exhaustiveNewAssociations, exhaustiveScoredPairs,
      pairsToProcess, insertAssociations, insertOrIgnoreAssociation, hasAssociation,
      keyMatches, sampleDb, semb1, iemb1, simZero, fmtQ, SIMILARITY_THRESHOLD,
      List.filter, List.filterMap, List.flatMap]

/-- C5 (amended): across any sequence of engine invocations over an
unchanged corpus, a pair that was scored AND persisted is never scored
again by a later run of either backend: once an association row for
`(sid, iid)` exists, neither scoring loop ever reaches its similarity
computation for that pair.  (A pair scored below the threshold is not
persisted, and may be scored again by later runs.) -/
theorem persisted_pair_never_rescored (db db' : Database α) (sid : Int)
    (iid : String) (q : List α → List (String × α))
    (hkey : hasAssociation db.associations sid iid = true) (h : Runs db db') :
    (sid, iid) ∉ exhaustiveScoredPairs db' ∧
      (sid, iid) ∉ indexedScoredPairs q db' := by
  have hkey' : hasAssociation db'.associations sid iid = true :=
    runs_hasAssociation_mono h hkey
  constructor
  · intro hmem
    rw [exhaustiveScoredPairs, List.mem_map] at hmem
    obtain ⟨p, hp, hpk⟩ := hmem
    rw [pairsToProcess, List.mem_filter] at hp
    have : hasAssociation db'.associations p.1.signal_id p.2.issue_id = false := by
      simpa using hp.2
    obtain ⟨hpk1, hpk2⟩ := Prod.mk.injEq .. ▸ hpk
    rw [hpk1, hpk2, hkey'] at this
    cases this
  · intro hmem
    rw [indexedScoredPairs, List.mem_flatMap] at hmem
    obtain ⟨s, _, hmem⟩ := hmem
    split at hmem
    · cases hmem
    · rw [List.mem_filterMap] at hmem
      obtain ⟨c, _, hc⟩ := hmem
      split at hc
      · cases hc
      · next hfalse =>
        cases hc
        exact hfalse hkey'

/-- Witness for the amended C5 at a concrete store with a persisted pair. -/
theorem persisted_pair_never_rescored_app :
    hasAssociation associatedDb.associations 1 "ENG-1" = true ∧
      (1, "ENG-1") ∉ exhaustiveScoredPairs associatedDb ∧
      (1, "ENG-1") ∉ indexedScoredPairs queryOne associatedDb :=
  ⟨by decide,
    persisted_pair_never_rescored associatedDb associatedDb 1 "ENG-1" queryOne
      (by decide) Relation.ReflTransGen.refl⟩

/-! ## C4 -/

theorem hasSignalEmbedding_eq_false {t : List (SignalEmbedding α)} {sid : Int} :
    hasSignalEmbedding t sid = false ↔ ∀ e ∈ t, ¬ e.signal_id = sid := by
  simp [hasSignalEmbedding, List.any_eq_false]

theorem hasIssueEmbedding_eq_false {t : List (IssueEmbedding α)} {iid : String} :
    hasIssueEmbedding t iid = false ↔ ∀ e ∈ t, ¬ e.issue_id = iid := by
  simp [hasIssueEmbedding, List.any_eq_false]

/-- The local generator embeds every signal still lacking a row. -/
theorem generate_signal_embeddings_covers {encode : List String → List (List α)}
    {db : Database α} (hlen : ∀ ts, (encode ts).length = ts.length)
    {s : Signal} (hs : s ∈ db.signals) :
    hasSignalEmbedding
      (generate_signal_embeddings encode db).signal_embeddings s.id = true := by
  simp only [generate_signal_embeddings]
  by_cases hm : (db.signals.filter
      (fun s => !(hasSignalEmbedding db.signal_embeddings s.id))).isEmpty
  · rw [if_pos hm]
    rw [List.isEmpty_eq_true, List.filter_eq_nil_iff] at hm
    have := hm s hs
    simpa using this
  · rw [if_neg hm]
    by_cases hemb : hasSignalEmbedding db.signal_embeddings s.id = true
    · exact hasSignalEmbedding_foldl_of (Or.inl hemb)
    · have hsm : s ∈ db.signals.filter
          (fun s => !(hasSignalEmbedding db.signal_embeddings s.id)) :=
        List.mem_filter.mpr ⟨hs, by simp [hemb]⟩
      have hl : (db.signals.filter
            (fun s => !(hasSignalEmbedding db.signal_embeddings s.id))).length ≤
          (encode ((db.signals.filter
            (fun s => !(hasSignalEmbedding db.signal_embeddings s.id))).map
              signalText)).length := by
        rw [hlen]
        simp
      obtain ⟨r, hr, hid⟩ := signalRow_covers hl hsm
      exact hasSignalEmbedding_foldl_of (Or.inr ⟨r, hr, hid⟩)

/-- The local generator never touches an existing signal-embedding row. -/
theorem generate_signal_embeddings_preserves {encode : List String → List (List α)}
    {db : Database α} {e : SignalEmbedding α} (he : e ∈ db.signal_embeddings) :
    e ∈ (generate_signal_embeddings encode db).signal_embeddings := by
  simp only [generate_signal_embeddings]
  split
  · exact he
  · refine mem_foldl_insertOrReplaceSignal he ?_
    intro r hr
    obtain ⟨s, hsm, hid⟩ := signalRow_ids hr
    rw [List.mem_filter] at hsm
    have hfalse : hasSignalEmbedding db.signal_embeddings s.id = false := by
      simpa using hsm.2
    rw [hid]
    exact hasSignalEmbedding_eq_false.mp hfalse e he

/-- The local generator embeds every issue still lacking a row. -/
theorem generate_issue_embeddings_covers {encode : List String → List (List α)}
    {db : Database α} (hlen : ∀ ts, (encode ts).length = ts.length)
    {i : Issue} (hi : i ∈ db.issues) :
    hasIssueEmbedding
      (generate_issue_embeddings encode db).issue_embeddings i.identifier = true := by
  simp only [generate_issue_embeddings]
  by_cases hm : (db.issues.filter
      (fun i => !(hasIssueEmbedding db.issue_embeddings i.identifier))).isEmpty
  · rw [if_pos hm]
    rw [List.isEmpty_eq_true, List.filter_eq_nil_iff] at hm
    have := hm i hi
    simpa using this
  · rw [if_neg hm]
    by_cases hemb : hasIssueEmbedding db.issue_embeddings i.identifier = true
    · exact hasIssueEmbedding_foldl_of (Or.inl hemb)
    · have him : i ∈ db.issues.filter
          (fun i => !(hasIssueEmbedding db.issue_embeddings i.identifier)) :=
        List.mem_filter.mpr ⟨hi, by simp [hemb]⟩
      have hl : (db.issues.filter
            (fun i => !(hasIssueEmbedding db.issue_embeddings i.identifier))).length ≤
          (encode ((db.issues.filter
            (fun i => !(hasIssueEmbedding db.issue_embeddings i.identifier))).map
              issueText)).length := by
        rw [hlen]
        simp
      obtain ⟨r, hr, hid⟩ := issueRow_covers hl him
      exact hasIssueEmbedding_foldl_of (Or.inr ⟨r, hr, hid⟩)

/-- The local generator never touches an existing issue-embedding row. -/
theorem generate_issue_embeddings_preserves {encode : List String → List (List α)}
    {db : Database α} {e : IssueEmbedding α} (he : e ∈ db.issue_embeddings) :
    e ∈ (generate_issue_embeddings encode db).issue_embeddings := by
  simp only [generate_issue_embeddings]
  split
  · exact he
  · refine mem_foldl_insertOrReplaceIssue he ?_
    intro r hr
    obtain ⟨i, him, hid⟩ := issueRow_ids hr
    rw [List.mem_filter] at him
    have hfalse : hasIssueEmbedding db.issue_embeddings i.identifier = false := by
      simpa using him.2
    rw [hid]
    exact hasIssueEmbedding_eq_false.mp hfalse e he

/-- The signal store after the ChromaDB loader: regenerated from scratch
when the count was zero, untouched otherwise. -/
theorem load_or_create_sig_embs_eq {encode : List String → List (List α)}
    {db : Database α} :
    (load_or_create_embeddings encode db).signal_embeddings =
      if db.signal_embeddings.length == 0 then
        (List.zipWith (fun s v =>
            ({ signal_id := s.id, embedding := v, model := MODEL_NAME } :
              SignalEmbedding α)) db.signals
          (encode (db.signals.map signalText))).foldl
          insertOrReplaceSignalEmbedding db.signal_embeddings
      else db.signal_embeddings := by
  simp only [load_or_create_embeddings]
  split
  · split <;> rfl
  · split <;> rfl

/-- The issue store after the ChromaDB loader: regenerated from scratch
when the count was zero, untouched otherwise. -/
theorem load_or_create_iss_embs_eq {encode : List String → List (List α)}
    {db : Database α} :
    (load_or_create_embeddings encode db).issue_embeddings =
      if db.issue_embeddings.length == 0 then
        (List.zipWith (fun i v =>
            ({ issue_id := i.identifier, embedding := v, model := MODEL_NAME } :
              IssueEmbedding α)) db.issues
          (encode (db.issues.map issueText))).foldl
          insertOrReplaceIssueEmbedding db.issue_embeddings
      else db.issue_embeddings := by
  simp only [load_or_create_embeddings]
  split
  · split <;> rfl
  · split <;> rfl

/-- Counterexample to C4 as stated: in a store where signal 1 is embedded
and signal 2 is not, a run of the ChromaDB backend's embedding step
(`load_or_create_embeddings`) inserts nothing — signal 2 is a signal
without an embedding for which no row is inserted, and the run does not
leave every entity with an embedding. -/
theorem chroma_loader_skips_missing_embedding :
    sig2 ∈ partialDb.signals ∧
      hasSignalEmbedding partialDb.signal_embeddings sig2.id = false ∧
      hasSignalEmbedding
        (load_or_create_embeddings encodeOne partialDb).signal_embeddings
        sig2.id = false := by
  decide

/-- C4 (amended): the exhaustive backend's generators satisfy the claim:
whenever the external batch encoder returns one vector per text, a run of
`generate_signal_embeddings` / `generate_issue_embeddings` inserts a row
for every signal/issue lacking one — leaving every entity embedded — and
never recomputes or disturbs an existing embedding row.  The ChromaDB
loader `load_or_create_embeddings` instead generates all-or-nothing: it
embeds every entity when the respective store is empty, and leaves the
store untouched (missing entities included) whenever at least one row
already exists. -/
theorem embedding_generation_coverage (encode : List String → List (List α))
    (db : Database α) (hlen : ∀ ts, (encode ts).length = ts.length) :
    (∀ s ∈ db.signals, hasSignalEmbedding
        (generate_signal_embeddings encode db).signal_embeddings s.id = true) ∧
      (∀ e ∈ db.signal_embeddings,
        e ∈ (generate_signal_embeddings encode db).signal_embeddings) ∧
      (∀ i ∈ db.issues, hasIssueEmbedding
        (generate_issue_embeddings encode db).issue_embeddings i.identifier = true) ∧
      (∀ e ∈ db.issue_embeddings,
        e ∈ (generate_issue_embeddings encode db).issue_embeddings) ∧
      (db.signal_embeddings = [] → ∀ s ∈ db.signals, hasSignalEmbedding
        (load_or_create_embeddings encode db).signal_embeddings s.id = true) ∧
      (db.signal_embeddings ≠ [] →
        (load_or_create_embeddings encode db).signal_embeddings =
          db.signal_embeddings) ∧
      (db.issue_embeddings = [] → ∀ i ∈ db.issues, hasIssueEmbedding
        (load_or_create_embeddings encode db).issue_embeddings i.identifier = true) ∧
      (db.issue_embeddings ≠ [] →
        (load_or_create_embeddings encode db).issue_embeddings =
          db.issue_embeddings) := by
  refine ⟨fun s hs => generate_signal_embeddings_covers hlen hs,
    fun e he => generate_signal_embeddings_preserves he,
    fun i hi => generate_issue_embeddings_covers hlen hi,
    fun e he => generate_issue_embeddings_preserves he, ?_, ?_, ?_, ?_⟩
  · intro hempty s hs
    rw [load_or_create_sig_embs_eq, if_pos (by simp [hempty])]
    have hl : db.signals.length ≤ (encode (db.signals.map signalText)).length := by
      rw [hlen]
      simp
    obtain ⟨r, hr, hid⟩ := signalRow_covers hl hs
    exact hasSignalEmbedding_foldl_of (Or.inr ⟨r, hr, hid⟩)
  · intro hne
    rw [load_or_create_sig_embs_eq, if_neg (by simpa using hne)]
  · intro hempty i hi
    rw [load_or_create_iss_embs_eq, if_pos (by simp [hempty])]
    have hl : db.issues.length ≤ (encode (db.issues.map issueText)).length := by
      rw [hlen]
      simp
    obtain ⟨r, hr, hid⟩ := issueRow_covers hl hi
    exact hasIssueEmbedding_foldl_of (Or.inr ⟨r, hr, hid⟩)
  · intro hne
    rw [load_or_create_iss_embs_eq, if_neg (by simpa using hne)]

/-- Witness for the amended C4 at a concrete store and encoder. -/
theorem embedding_generation_coverage_app :
    (∀ ts, (encodeOne ts).length = ts.length) ∧
      hasSignalEmbedding
        (generate_signal_embeddings encodeOne partialDb).signal_embeddings
        sig2.id = true ∧
      (load_or_create_embeddings encodeOne partialDb).signal_embeddings =
        partialDb.signal_embeddings :=
  ⟨fun ts => by simp [encodeOne],
    (embedding_generation_coverage encodeOne partialDb
        (fun ts => by simp [encodeOne])).1 sig2 (by decide),
    (embedding_generation_coverage encodeOne partialDb
        (fun ts => by simp [encodeOne])).2.2.2.2.2.1 (by decide)⟩

/-! ## C6 -/

/-- C6 evidence: `cosine_similarity` has no zero-norm guard; at a
zero-norm first argument the numerator and the whole divisor
`linalgNorm a * linalgNorm b` are zero, so the source's float division
evaluates `0.0/0.0` — IEEE NaN, not a zero score and not a skip inside
the similarity computation itself. -/
theorem cosine_zero_norm_divides_by_zero :
    dotList [(0:ℝ), 0] [(1:ℝ), 0] = 0 ∧
      linalgNorm [(0:ℝ), 0] * linalgNorm [(1:ℝ), 0] = 0 := by
  constructor
  · norm_num [dotList]
  · have h : dotList [(0:ℝ), 0] [(0:ℝ), 0] = 0 := by norm_num [dotList]
    rw [linalgNorm, h, Real.sqrt_zero, zero_mul]

/-! ## C7 -/

theorem dotList_eq_sum_range (a b : List ℝ) :
    dotList a b =
      ∑ i ∈ Finset.range (min a.length b.length), a.getD i 0 * b.getD i 0 := by
  induction a generalizing b with
  | nil => simp [dotList]
  | cons x a ih =>
    cases b with
    | nil => simp [dotList]
    | cons y b =>
      have hmin : min (x :: a).length (y :: b).length = min a.length b.length + 1 := by
        simp [Nat.succ_min_succ]
      rw [hmin, Finset.sum_range_succ']
      have : dotList (x :: a) (y :: b) = x * y + dotList a b := by
        simp [dotList]
      rw [this, ih b]
      simp [add_comm]

theorem dotList_self_nonneg (a : List ℝ) : 0 ≤ dotList a a := by
  rw [dotList_eq_sum_range]
  exact Finset.sum_nonneg (fun i _ => mul_self_nonneg _)

/-- Cauchy-Schwarz for the embedded `np.dot`. -/
theorem dotList_sq_le (a b : List ℝ) :
    (dotList a b) ^ 2 ≤ dotList a a * dotList b b := by
  have hcs := Finset.sum_mul_sq_le_sq_mul_sq (Finset.range (min a.length b.length))
    (fun i => a.getD i 0) (fun i => b.getD i 0)
  have hA : ∑ i ∈ Finset.range (min a.length b.length), (a.getD i 0) ^ 2 ≤
      dotList a a := by
    rw [dotList_eq_sum_range, Nat.min_self]
    calc ∑ i ∈ Finset.range (min a.length b.length), (a.getD i 0) ^ 2
        ≤ ∑ i ∈ Finset.range a.length, (a.getD i 0) ^ 2 :=
          Finset.sum_le_sum_of_subset_of_nonneg
            (Finset.range_subset.mpr (Nat.min_le_left _ _))
            (fun i _ _ => sq_nonneg _)
      _ = ∑ i ∈ Finset.range a.length, a.getD i 0 * a.getD i 0 :=
          Finset.sum_congr rfl (fun i _ => pow_two _)
  have hB : ∑ i ∈ Finset.range (min a.length b.length), (b.getD i 0) ^ 2 ≤
      dotList b b := by
    rw [dotList_eq_sum_range, Nat.min_self]
    calc ∑ i ∈ Finset.range (min a.length b.length), (b.getD i 0) ^ 2
        ≤ ∑ i ∈ Finset.range b.length, (b.getD i 0) ^ 2 :=
          Finset.sum_le_sum_of_subset_of_nonneg
            (Finset.range_subset.mpr (Nat.min_le_right _ _))
            (fun i _ _ => sq_nonneg _)
      _ = ∑ i ∈ Finset.range b.length, b.getD i 0 * b.getD i 0 :=
          Finset.sum_congr rfl (fun i _ => pow_two _)
  have hA0 : 0 ≤ ∑ i ∈ Finset.range (min a.length b.length), (a.getD i 0) ^ 2 :=
    Finset.sum_nonneg (fun i _ => sq_nonneg _)
  have hB0 : 0 ≤ ∑ i ∈ Finset.range (min a.length b.length), (b.getD i 0) ^ 2 :=
    Finset.sum_nonneg (fun i _ => sq_nonneg _)
  rw [dotList_eq_sum_range a b]
  exact hcs.trans (mul_le_mul hA hB hB0 (hA0.trans hA))

theorem linalgNorm_nonneg (a : List ℝ) : 0 ≤ linalgNorm a :=
  Real.sqrt_nonneg _

/-- The numerator of `cosine_similarity` is bounded by its denominator. -/
theorem abs_dotList_le (a b : List ℝ) :
    |dotList a b| ≤ linalgNorm a * linalgNorm b := by
  calc |dotList a b| = Real.sqrt ((dotList a b) ^ 2) := (Real.sqrt_sq_eq_abs _).symm
    _ ≤ Real.sqrt (dotList a a * dotList b b) := Real.sqrt_le_sqrt (dotList_sq_le a b)
    _ = linalgNorm a * linalgNorm b := Real.sqrt_mul (dotList_self_nonneg a) _

/-- C7: for real vectors of nonzero norm the exhaustive backend's
`cosine_similarity` lies in `[-1, 1]`, and for a nonnegative index
distance the indexed backend's transformed similarity
`chromaSimilarity d = 1/(1+d)` lies in `(0, 1]`. -/
theorem similarity_scores_bounded :
    (∀ a b : List ℝ, linalgNorm a ≠ 0 → linalgNorm b ≠ 0 →
        -1 ≤ cosine_similarity a b ∧ cosine_similarity a b ≤ 1) ∧
      ∀ d : α, 0 ≤ d → 0 < chromaSimilarity d ∧ chromaSimilarity d ≤ 1 := by
  constructor
  · intro a b ha hb
    have hM : 0 < linalgNorm a * linalgNorm b :=
      mul_pos ((linalgNorm_nonneg a).lt_of_ne (Ne.symm ha))
        ((linalgNorm_nonneg b).lt_of_ne (Ne.symm hb))
    obtain ⟨hlo, hhi⟩ := abs_le.mp (abs_dotList_le a b)
    constructor
    · rw [cosine_similarity, le_div_iff₀ hM]
      linarith
    · rw [cosine_similarity, div_le_one hM]
      exact hhi
  · intro d hd
    have h1 : (0 : α) < 1 + d := by linarith
    constructor
    · exact div_pos one_pos h1
    · rw [chromaSimilarity, div_le_one h1]
      linarith

/-- Witness for C7 at concrete vectors and a concrete distance. -/
theorem similarity_scores_bounded_app :
    linalgNorm [(1:ℝ), 0] ≠ 0 ∧
      (-1 ≤ cosine_similarity [(1:ℝ), 0] [(1:ℝ), 0] ∧
        cosine_similarity [(1:ℝ), 0] [(1:ℝ), 0] ≤ 1) ∧
      (0 ≤ (2:ℚ)) ∧
      (0 < chromaSimilarity (2:ℚ) ∧ chromaSimilarity (2:ℚ) ≤ 1) := by
  have hn : linalgNorm [(1:ℝ), 0] = 1 := by
    rw [linalgNorm, show dotList [(1:ℝ), 0] [(1:ℝ), 0] = 1 by norm_num [dotList],
      Real.sqrt_one]
  have hne : linalgNorm [(1:ℝ), 0] ≠ 0 := by rw [hn]; norm_num
  exact ⟨hne, (similarity_scores_bounded (α := ℚ)).1 _ _ hne hne,
    by norm_num, (similarity_scores_bounded (α := ℚ)).2 2 (by norm_num)⟩

/-! ## C8 -/

/-- C8: `get_signals_for_issue` and `get_issues_for_signal` return rows
whose association belongs to the store, matches the queried issue/signal,
and scores at least `min_score`; and the returned list is sorted in
non-increasing score order. -/
theorem ranked_queries_sound_and_sorted (db : Database α) (iid : String)
    (sid : Int) (ms : α) :
    ((get_signals_for_issue db iid ms).Sorted byScoreDesc ∧
      ∀ x ∈ get_signals_for_issue db iid ms,
        x.2 ∈ db.associations ∧ x.2.issue_id = iid ∧ ms ≤ x.2.score) ∧
      (get_issues_for_signal db sid ms).Sorted byScoreDesc ∧
      ∀ x ∈ get_issues_for_signal db sid ms,
        x.2 ∈ db.associations ∧ x.2.signal_id = sid ∧ ms ≤ x.2.score := by
  refine ⟨⟨List.sorted_insertionSort byScoreDesc _, ?_⟩,
    List.sorted_insertionSort byScoreDesc _, ?_⟩
  · intro x hx
    rw [get_signals_for_issue, (List.perm_insertionSort byScoreDesc _).mem_iff,
      List.mem_flatMap] at hx
    obtain ⟨a, ha, hx⟩ := hx
    rw [List.mem_filter] at ha
    obtain ⟨s, _, rfl⟩ := List.mem_map.mp hx
    have hcond := ha.2
    simp only [Bool.and_eq_true, beq_iff_eq, decide_eq_true_eq] at hcond
    exact ⟨ha.1, hcond.1, hcond.2⟩
  · intro x hx
    rw [get_issues_for_signal, (List.perm_insertionSort byScoreDesc _).mem_iff,
      List.mem_flatMap] at hx
    obtain ⟨a, ha, hx⟩ := hx
    rw [List.mem_filter] at ha
    obtain ⟨i, _, rfl⟩ := List.mem_map.mp hx
    have hcond := ha.2
    simp only [Bool.and_eq_true, beq_iff_eq, decide_eq_true_eq] at hcond
    exact ⟨ha.1, hcond.1, hcond.2⟩

/-- Witness for C8 at a concrete store and query. -/
theorem ranked_queries_sound_and_sorted_app :
    (sig1, assoc1) ∈ get_signals_for_issue associatedDb "ENG-1" 0 ∧
      assoc1 ∈ associatedDb.associations ∧ assoc1.issue_id = "ENG-1" ∧
      (0 : ℚ) ≤ assoc1.score := by
  have hmem : (sig1, assoc1) ∈ get_signals_for_issue associatedDb "ENG-1" 0 := by
    norm_num [get_signals_for_issue, associatedDb, sampleDb, assoc1, sig1,
      List.filter, List.flatMap, List.insertionSort, List.orderedInsert]
  exact ⟨hmem,
    (ranked_queries_sound_and_sorted associatedDb "ENG-1" 1 0).1.2 _ hmem⟩

/-! ## C9 -/

/-- C9: under the spec-§6 schema constraints on `signal_embeddings`
(`signal_id` unique, and a foreign key into `signals`), the
`signal_embedded` count reported by `get_embeddings_status` never exceeds
`signal_total` and equals the number of distinct signal identifiers
present in the signal-embedding store. -/
theorem signal_embedded_counts_distinct (db : Database α)
    (hnodup : (db.signal_embeddings.map (fun e => e.signal_id)).Nodup)
    (hfk : ∀ e ∈ db.signal_embeddings, e.signal_id ∈ db.signals.map Signal.id) :
    (get_embeddings_status db).signal_embedded ≤
        (get_embeddings_status db).signal_total ∧
      (get_embeddings_status db).signal_embedded =
        ((db.signal_embeddings.map (fun e => e.signal_id)).dedup).length := by
  constructor
  · have hsub : (db.signal_embeddings.map (fun e => e.signal_id)) ⊆
        db.signals.map Signal.id := by
      intro x hx
      obtain ⟨e, he, rfl⟩ := List.mem_map.mp hx
      exact hfk e he
    have h1 : (db.signal_embeddings.map (fun e => e.signal_id)).length ≤
        (db.signals.map Signal.id).length :=
      calc (db.signal_embeddings.map (fun e => e.signal_id)).length
          = (db.signal_embeddings.map (fun e => e.signal_id)).toFinset.card :=
            (List.toFinset_card_of_nodup hnodup).symm
        _ ≤ (db.signals.map Signal.id).toFinset.card :=
            Finset.card_le_card (fun x hx =>
              List.mem_toFinset.mpr (hsub (List.mem_toFinset.mp hx)))
        _ ≤ (db.signals.map Signal.id).length := List.toFinset_card_le _
    simpa [get_embeddings_status] using h1
  · rw [List.dedup_eq_self.mpr hnodup]
    simp [get_embeddings_status]

/-- Witness for C9 at a concrete store. -/
theorem signal_embedded_counts_distinct_app :
    (get_embeddings_status associatedDb).signal_embedded ≤
        (get_embeddings_status associatedDb).signal_total ∧
      (get_embeddings_status associatedDb).signal_embedded =
        ((associatedDb.signal_embeddings.map (fun e => e.signal_id)).dedup).length :=
  signal_embedded_counts_distinct associatedDb (by decide) (by decide)

/-! ## C10 -/

/-- C10: `get_issue_by_id`, `get_signal_by_id` and `get_association`
return `none` exactly when no stored row matches the given identifier(s)
— an absent entity or association is reported as `None`, never as an
error — and any returned row is a stored row matching the identifier(s). -/
theorem lookup_queries_return_matching_or_none (db : Database α)
    (iid : String) (sid : Int) :
    ((get_issue_by_id db iid = none ↔ ∀ i ∈ db.issues, ¬ i.identifier = iid) ∧
      ∀ r, get_issue_by_id db iid = some r → r ∈ db.issues ∧ r.identifier = iid) ∧
      ((get_signal_by_id db sid = none ↔ ∀ s ∈ db.signals, ¬ s.id = sid) ∧
        ∀ r, get_signal_by_id db sid = some r → r ∈ db.signals ∧ r.id = sid) ∧
      (get_association db sid iid = none ↔
        ∀ a ∈ db.associations, ¬(a.signal_id = sid ∧ a.issue_id = iid)) ∧
      ∀ r, get_association db sid iid = some r →
        r ∈ db.associations ∧ r.signal_id = sid ∧ r.issue_id = iid := by
  refine ⟨⟨?_, ?_⟩, ⟨?_, ?_⟩, ?_, ?_⟩
  · simp [get_issue_by_id, List.find?_eq_none]
  · intro r hr
    exact ⟨List.mem_of_find?_eq_some hr, by simpa using List.find?_some hr⟩
  · simp [get_signal_by_id, List.find?_eq_none]
  · intro r hr
    exact ⟨List.mem_of_find?_eq_some hr, by simpa using List.find?_some hr⟩
  · simp [get_association, List.find?_eq_none]
  · intro r hr
    have h := List.find?_some hr
    simp only [Bool.and_eq_true, beq_iff_eq] at h
    exact ⟨List.mem_of_find?_eq_some hr, h.1, h.2⟩

/-- Witness for C10 at a concrete store: a stored identifier returns the
matching row, an unknown identifier returns `none`. -/
theorem lookup_queries_return_matching_or_none_app :
    (iss1 ∈ associatedDb.issues ∧ iss1.identifier = "ENG-1") ∧
      get_issue_by_id associatedDb "ENG-404" = none :=
  ⟨(lookup_queries_return_matching_or_none associatedDb "ENG-1" 1).1.2 iss1
      (by decide),
    (lookup_queries_return_matching_or_none associatedDb "ENG-404" 1).1.1.mpr
      (by decide)⟩

end SignalsPipeline
